import Mathlib

/-!
Verification development for the AppleHealth extraction / aggregation /
correction pipeline.

The Python sources are embedded shallowly:

* calendar dates handled by `correct_sleep_data.py` (ISO strings compared as
  `datetime.date` values) become the `Date` structure with lexicographic order;
* local wall-clock timestamps used by the extractors become `Timestamp`
  (a calendar-day index plus hour/minute/second); all timestamps of one export
  share a timezone, so a 24-hour subtraction decrements the day index by one;
* Python floats are modelled as exact rationals (`ℚ`);
* `dict` / `defaultdict` accumulation is modelled by an insertion-ordered
  association list with in-place update (`bupsert`), matching Python's
  insertion-ordered dictionaries;
* Python `set` fields are modelled as insertion-ordered duplicate-free
  lists (`saddList` adds an element only when new); claims about them are
  stated up to set equality (membership), since Python sets are unordered;
* exceptions (`KeyError`, `TypeError`, `ValueError`, `FileNotFoundError`)
  are modelled with `Except String` / `Option` return values.
-/

/-- Calendar date as `datetime.date`: year, month, day compared
lexicographically (ISO dates compare this way). -/
structure Date where
  year : Nat
  month : Nat
  day : Nat
deriving DecidableEq, Repr

/-- Lexicographic order on dates, as Python compares `datetime.date` values. -/
def dateLe (a b : Date) : Bool :=
  (a.year < b.year) ||
    (a.year = b.year &&
      ((a.month < b.month) || (a.month = b.month && a.day ≤ b.day)))

/-- The fixed cutoff date `2024-11-20` of `correct_sleep_data.py`. -/
def cutoffDate : Date := ⟨2024, 11, 20⟩

/-- Local wall-clock timestamp: calendar-day index plus time of day, the
fields of a parsed `datetime` that the extractors inspect. -/
structure Timestamp where
  day : Int
  hour : Nat
  minute : Nat
  second : Nat
deriving DecidableEq, Repr

/-- Seconds since the (local) epoch; `end - start` on two timestamps of the
same timezone gives the `timedelta` the extractors turn into hours. -/
def Timestamp.toSeconds (t : Timestamp) : Int :=
  t.day * 86400 + (t.hour : Int) * 3600 + (t.minute : Int) * 60 + (t.second : Int)

/-- One row of the persisted sleep summary JSON as `correct_sleep_data.py`
loads it: a dictionary whose keys may be absent.  The correction reads only
`date`, `asleep` and `in_bed`; `date = none` also models an unparseable date
string (both `KeyError` and `ValueError` abort the run).  The remaining
fields are carried through untouched. -/
structure JRow where
  date : Option Date
  asleep : Option ℚ
  in_bed : Option ℚ
  unspecified : ℚ
  total : ℚ
  sources : List String
deriving DecidableEq, Repr

/-- Body of the `for entry in corrected_data` loop of `correct_sleep_data`
(src/correct_sleep_data.py lines 80-93): parse the date (a missing or bad
date raises), and for dates on or after the cutoff replace `asleep` by
`max(0, asleep - in_bed)` (missing `asleep` or `in_bed` raises `KeyError`
only in this branch).  The returned flag records whether the row was
corrected (the script's `corrected_records` counter). -/
def correctEntry (cutoff : Date) (e : JRow) : Except String (JRow × Bool) :=
  match e.date with
  | none => Except.error "KeyError/ValueError: date"
  | some d =>
    if dateLe cutoff d then
      match e.asleep, e.in_bed with
      | some a, some b => Except.ok ({ e with asleep := some (max 0 (a - b)) }, true)
      | none, _ => Except.error "KeyError: asleep"
      | some _, none => Except.error "KeyError: in_bed"
    else
      Except.ok (e, false)

/-- The correction loop over all rows (`correct_sleep_data`): the first row
that raises aborts the whole run; otherwise every row is processed. -/
def correctRows (cutoff : Date) : List JRow → Except String (List JRow)
  | [] => Except.ok []
  | e :: rest =>
    match correctEntry cutoff e with
    | Except.error m => Except.error m
    | Except.ok (e2, _) =>
      match correctRows cutoff rest with
      | Except.error m => Except.error m
      | Except.ok rs => Except.ok (e2 :: rs)

/-- The `correct_sleep_data` function at its default cutoff `2024-11-20`.
It operates on a deep copy, so the input list is never mutated; here that is
automatic. -/
def correct_sleep_data (data : List JRow) : Except String (List JRow) :=
  correctRows cutoffDate data

/-- The three files of the `data/` directory that the Correction Engine
touches: `sleep_data.json` (original), `sleep_data_backup.json` (backup) and
`sleep_data_corrected.json` (corrected output); `none` means the file does
not exist. -/
structure FS where
  original : Option (List JRow)
  backup : Option (List JRow)
  corrected : Option (List JRow)
deriving DecidableEq, Repr

/-- The `save_sleep_data` persist phase (src/correct_sleep_data.py lines
39-62): when `bkup` is set and the original file exists and no backup file
exists yet, copy the original to the backup location (an existing backup is
never overwritten); then write the corrected data. -/
def save_sleep_data (fs : FS) (data : List JRow) (bkup : Bool) : FS :=
  let fs1 :=
    if bkup && fs.original.isSome && fs.backup.isNone then
      { fs with backup := fs.original }
    else fs
  { fs1 with corrected := some data }

/-- The `load_sleep_data` load phase: a missing artifact raises
`FileNotFoundError` before any processing. -/
def load_sleep_data (fs : FS) : Except String (List JRow) :=
  match fs.original with
  | none => Except.error "FileNotFoundError: data/sleep_data.json"
  | some rows => Except.ok rows

/-- One run of the Correction Engine (the `__main__` block): load, correct,
then persist with backup enabled.  `analyze_corrections` only prints
statistics (it is total whenever the correction succeeded) and
`update_original_file` is gated on interactive confirmation; neither changes
the modelled files when the confirmation is declined, so they are omitted. -/
def runCorrection (fs : FS) : Except String FS :=
  match load_sleep_data fs with
  | Except.error m => Except.error m
  | Except.ok data =>
    match correct_sleep_data data with
    | Except.error m => Except.error m
    | Except.ok corrected => Except.ok (save_sleep_data fs corrected true)

/-- The observable outcome of one engine invocation: the top-level handler
catches any exception and prints it, in which case nothing was written and
the file system is unchanged. -/
def runMain (fs : FS) : FS × Option String :=
  match runCorrection fs with
  | Except.ok fs2 => (fs2, none)
  | Except.error m => (fs, some m)

/-- Result of parsing one XML attribute: absent from the record, present but
unparseable (raises `ValueError`/`TypeError` when parsed), or parsed. -/
inductive Attr (α : Type) where
  | missing : Attr α
  | bad : Attr α
  | good : α → Attr α
deriving DecidableEq, Repr

/-- True when the attribute parsed successfully. -/
def attrGood {α : Type} : Attr α → Bool
  | Attr.good _ => true
  | _ => false

/-- True when the attribute is present but unparseable. -/
def attrBad {α : Type} : Attr α → Bool
  | Attr.bad => true
  | _ => false

/-- One raw `StepCount` XML record, reduced to the attributes
`get_step_count_records` reads.  `value` is the result of
`int(float(record.get('value', 0)))`: `missing` defaults to `0`, `bad`
raises `ValueError`; the timestamps raise on `missing` (`TypeError`) and on
`bad` (`ValueError`); `sourceName` defaults to `"Unknown"`. -/
structure RawStepRec where
  value : Attr Int
  startDate : Attr Timestamp
  endDate : Attr Timestamp
  unit : Option String
  sourceName : Option String
deriving DecidableEq, Repr

/-- A validated step record as `get_step_count_records` appends it. -/
structure StepRec where
  start_date : Timestamp
  end_date : Timestamp
  value : Int
  unit : String
  source : String
  date : Int
deriving DecidableEq, Repr

/-- The date/value/filter steps for one step record once the value attribute
has been coerced: both timestamps must parse, then non-positive values are
skipped silently (`Except.ok none`); otherwise the record is kept. -/
def processStepDates (r : RawStepRec) (v : Int) : Except String (Option StepRec) :=
  match r.startDate with
  | Attr.good s =>
    match r.endDate with
    | Attr.good e =>
      if v ≤ 0 then Except.ok none
      else Except.ok (some
        { start_date := s, end_date := e, value := v,
          unit := r.unit.getD "count", source := r.sourceName.getD "Unknown",
          date := s.day })
    | _ => Except.error "parse endDate"
  | _ => Except.error "parse startDate"

/-- Body of the record loop of `get_step_count_records`
(src/extract_step_count.py lines 32-56): `Except.error` is a caught
per-record exception (one diagnostic line is printed and the loop
continues), `Except.ok none` is the silent `value <= 0` skip. -/
def processStepRecord (r : RawStepRec) : Except String (Option StepRec) :=
  match r.value with
  | Attr.bad => Except.error "ValueError: value"
  | Attr.missing => processStepDates r 0
  | Attr.good n => processStepDates r n

/-- The whole `get_step_count_records` loop: the accepted records in order,
paired with the number of per-record error diagnostics printed.  No other
count is produced; the end-of-run report prints the length of the accepted
list. -/
def get_step_count_records : List RawStepRec → List StepRec × Nat
  | [] => ([], 0)
  | r :: rest =>
    let p := get_step_count_records rest
    match processStepRecord r with
    | Except.error _ => (p.1, p.2 + 1)
    | Except.ok none => p
    | Except.ok (some rec) => (rec :: p.1, p.2)

/-- The effective integer value of a raw step record (missing defaults 0). -/
def stepVal (r : RawStepRec) : Int :=
  match r.value with
  | Attr.good n => n
  | _ => 0

/-- A raw step record that raises a caught per-record exception: a bad value
string, or (value coercion succeeding) a missing or bad timestamp. -/
def stepMalformed (r : RawStepRec) : Bool :=
  attrBad r.value || !attrGood r.startDate || !attrGood r.endDate

/-- A raw step record skipped silently by the `value <= 0` filter. -/
def stepSilent (r : RawStepRec) : Bool :=
  !stepMalformed r && decide (stepVal r ≤ 0)

/-- A raw step record that is accepted. -/
def stepAccepted (r : RawStepRec) : Bool :=
  !stepMalformed r && decide (0 < stepVal r)

/-- One raw `SleepAnalysis` XML record.  `value` is fetched with no default
(`record.get('value')`), so a missing attribute yields `none` and is stored
as-is; the timestamps behave as for step records. -/
structure RawSleepRec where
  value : Option String
  startDate : Attr Timestamp
  endDate : Attr Timestamp
  sourceName : Option String
deriving DecidableEq, Repr

/-- A sleep record as `get_sleep_records` appends it
(src/extract_sleep_data.py lines 43-51). -/
structure SleepRec where
  start_date : Timestamp
  end_date : Timestamp
  duration : ℚ
  value : Option String
  source : String
  night_date : Int
  is_nap : Bool
deriving DecidableEq, Repr

/-- Body of the record loop of `get_sleep_records`
(src/extract_sleep_data.py lines 19-54): parse both timestamps (failures
are caught per-record), compute the duration in hours, silently skip
durations below 0.1 or above 24 hours, flag naps
(`start_date.hour < 18 and start_date.hour > 8`), and bucket to the night
date (previous calendar day when `start_date.hour < 6`, since subtracting
`timedelta(days=1)` moves the wall clock back exactly one day). -/
def processSleepRecord (r : RawSleepRec) : Except String (Option SleepRec) :=
  match r.startDate with
  | Attr.good s =>
    match r.endDate with
    | Attr.good e =>
      let dur : ℚ := ((e.toSeconds - s.toSeconds : Int) : ℚ) / 3600
      if dur < 1/10 || dur > 24 then Except.ok none
      else Except.ok (some
        { start_date := s, end_date := e, duration := dur, value := r.value,
          source := r.sourceName.getD "Unknown",
          night_date := if s.hour < 6 then s.day - 1 else s.day,
          is_nap := decide (s.hour < 18) && decide (s.hour > 8) })
    | _ => Except.error "parse endDate"
  | _ => Except.error "parse startDate"

/-- The whole `get_sleep_records` loop: accepted records in order, paired
with the number of per-record error diagnostics. -/
def get_sleep_records : List RawSleepRec → List SleepRec × Nat
  | [] => ([], 0)
  | r :: rest =>
    let p := get_sleep_records rest
    match processSleepRecord r with
    | Except.error _ => (p.1, p.2 + 1)
    | Except.ok none => p
    | Except.ok (some rec) => (rec :: p.1, p.2)

/-- Insertion-ordered dictionary update, the behaviour of a Python
`defaultdict`: update the entry holding key `k` in place, or append a fresh
entry initialized from the default and then updated. -/
def bupsert {β : Type} (k : Int) (f : β → β) (dflt : β) : List (Int × β) → List (Int × β)
  | [] => [(k, f dflt)]
  | a :: as => if a.1 = k then (a.1, f a.2) :: as else a :: bupsert k f dflt as

/-- A record loop over a `defaultdict`: each record updates the bucket named
by its key. -/
def bfold {ρ β : Type} (key : ρ → Int) (upd : ρ → β → β) (dflt : β) :
    List ρ → List (Int × β) → List (Int × β)
  | [], acc => acc
  | r :: rs, acc => bfold key upd dflt rs (bupsert (key r) (upd r) dflt acc)

/-- Dictionary lookup: the first (unique, once keys are nodup) entry with
the given key. -/
def blookup {β : Type} (acc : List (Int × β)) (k : Int) : Option (Int × β) :=
  acc.find? (fun p => decide (p.1 = k))

/-- Python's `set.add`: extend the set only when the element is new. -/
def saddList (s : String) (l : List String) : List String :=
  if s ∈ l then l else l ++ [s]

/-- A summary row of `extract_step_count.aggregate_by_day`. -/
structure StepRow where
  date : Int
  steps : Int
  sources : List String
deriving DecidableEq, Repr

/-- Per-record bucket update of the step-count loop
(src/extract_step_count.py lines 71-77): add the value to the running
total and the source name to the source set. -/
def stepUpd (r : StepRec) (b : Int × List String) : Int × List String :=
  (b.1 + r.value, saddList r.source b.2)

/-- The `aggregate_by_day` function of `extract_step_count.py` (lines
61-84): defaultdict accumulation keyed by record date, then one row per
bucket, sorted ascending by date (Python's stable `list.sort`). -/
def aggregate_by_day (rs : List StepRec) : List StepRow :=
  ((bfold (fun r => r.date) stepUpd (0, []) rs []).map
      (fun p => { date := p.1, steps := p.2.1, sources := p.2.2 : StepRow })).insertionSort
    (fun a b => a.date ≤ b.date)

/-- Sum of the step values recorded on day `d` (the claim's reference
value). -/
def stepsOn (rs : List StepRec) (d : Int) : Int :=
  ((rs.filter (fun r => decide (r.date = d))).map (fun r => r.value)).sum

/-- Source names contributing step records on day `d` (with duplicates;
claims compare up to membership). -/
def stepSourcesOn (rs : List StepRec) (d : Int) : List String :=
  (rs.filter (fun r => decide (r.date = d))).map (fun r => r.source)

/-- A validated resting-heart-rate record as `get_resting_hr_records` builds
it, reduced to the fields its `aggregate_by_day` reads (the stored
start/end timestamps and unit are never read by the aggregator). -/
structure HRRec where
  value : ℚ
  source : String
  date : Int
deriving DecidableEq, Repr

/-- A summary row of `extract_resting_hr.aggregate_by_day`. -/
structure HRRow where
  date : Int
  resting_hr : ℚ
  min_hr : ℚ
  max_hr : ℚ
  readings : Nat
  sources : List String
deriving DecidableEq, Repr

/-- Per-record bucket update of the resting-heart-rate loop
(src/extract_resting_hr.py lines 72-78): append the value and add the
source. -/
def hrUpd (r : HRRec) (b : List ℚ × List String) : List ℚ × List String :=
  (b.1 ++ [r.value], saddList r.source b.2)

/-- Round half to even, the rounding of Python's `round`. -/
def rhe (q : ℚ) : Int :=
  if q - ⌊q⌋ < 1/2 then ⌊q⌋
  else if (1 : ℚ)/2 < q - ⌊q⌋ then ⌊q⌋ + 1
  else if ⌊q⌋ % 2 = 0 then ⌊q⌋ else ⌊q⌋ + 1

/-- Python's `round(q, 1)`. -/
def round1 (q : ℚ) : ℚ := (rhe (10 * q) : ℚ) / 10

/-- `statistics.mean`: sum over length. -/
def meanQ (l : List ℚ) : ℚ := l.sum / (l.length : ℚ)

/-- Python's `min` over a list (only ever applied to non-empty lists; the
code guards with `len(values) > 0`). -/
def pymin : List ℚ → ℚ
  | [] => 0
  | x :: xs => xs.foldl min x

/-- Python's `max` over a list. -/
def pymax : List ℚ → ℚ
  | [] => 0
  | x :: xs => xs.foldl max x

/-- The `aggregate_by_day` function of `extract_resting_hr.py` (lines
61-98): accumulate per-day value lists and source sets, then build a row
for each non-empty bucket with the rounded mean, min, max and count, sorted
ascending by date. -/
def aggregate_by_day_hr (rs : List HRRec) : List HRRow :=
  ((bfold (fun r => r.date) hrUpd ([], []) rs []).filterMap
      (fun p =>
        if p.2.1.isEmpty then none
        else some
          { date := p.1, resting_hr := round1 (meanQ p.2.1),
            min_hr := pymin p.2.1, max_hr := pymax p.2.1,
            readings := p.2.1.length, sources := p.2.2 : HRRow })).insertionSort
    (fun a b => a.date ≤ b.date)

/-- Heart-rate values recorded on day `d`, in record order. -/
def hrValuesOn (rs : List HRRec) (d : Int) : List ℚ :=
  (rs.filter (fun r => decide (r.date = d))).map (fun r => r.value)

/-- Source names contributing heart-rate records on day `d`. -/
def hrSourcesOn (rs : List HRRec) (d : Int) : List String :=
  (rs.filter (fun r => decide (r.date = d))).map (fun r => r.source)

/-- Python's `needle in hay` substring test on strings. -/
def strContains (hay needle : String) : Bool :=
  hay.toList.tails.any (fun t => needle.toList.isPrefixOf t)

/-- Accumulator of one night bucket of `aggregate_sleep_by_night`
(src/extract_sleep_data.py lines 64-70). -/
structure NightAcc where
  asleep : ℚ
  in_bed : ℚ
  unspecified : ℚ
  total : ℚ
  sources : List String
deriving DecidableEq, Repr

/-- The initial bucket value of the sleep defaultdict. -/
def nightDflt : NightAcc := ⟨0, 0, 0, 0, []⟩

/-- Per-record bucket update of the sleep loop (src/extract_sleep_data.py
lines 82-93): add the source, add the duration to the category picked by
substring match on the label (`Asleep` before `InBed` before unspecified),
and add the duration to the total unconditionally. -/
def nightUpd (dur : ℚ) (v : String) (src : String) (b : NightAcc) : NightAcc :=
  let b1 := { b with sources := saddList src b.sources }
  if strContains v "Asleep" then
    { b1 with asleep := b1.asleep + dur, total := b1.total + dur }
  else if strContains v "InBed" then
    { b1 with in_bed := b1.in_bed + dur, total := b1.total + dur }
  else
    { b1 with unspecified := b1.unspecified + dur, total := b1.total + dur }

/-- One iteration of the sleep aggregation loop: naps are skipped before
anything touches the bucket; a missing label then raises `TypeError`
(Python evaluates `'Asleep' in value` with `value = None`), aborting the
run; otherwise the bucket named by the night date is updated. -/
def sleepStep (acc : List (Int × NightAcc)) (r : SleepRec) :
    Except String (List (Int × NightAcc)) :=
  if r.is_nap then Except.ok acc
  else
    match r.value with
    | none => Except.error "TypeError: argument of type NoneType is not iterable"
    | some v =>
      Except.ok (bupsert r.night_date (nightUpd r.duration v r.source) nightDflt acc)

/-- The sleep aggregation loop over all records. -/
def sleepFoldE : List SleepRec → List (Int × NightAcc) → Except String (List (Int × NightAcc))
  | [], acc => Except.ok acc
  | r :: rs, acc =>
    match sleepStep acc r with
    | Except.error m => Except.error m
    | Except.ok acc2 => sleepFoldE rs acc2

/-- A row of the sleep night summary. -/
structure NightRow where
  date : Int
  asleep : ℚ
  in_bed : ℚ
  unspecified : ℚ
  total : ℚ
  sources : List String
deriving DecidableEq, Repr

/-- Build the output row of one night bucket. -/
def toNightRow (p : Int × NightAcc) : NightRow :=
  ⟨p.1, p.2.asleep, p.2.in_bed, p.2.unspecified, p.2.total, p.2.sources⟩

/-- The `aggregate_sleep_by_night` function (src/extract_sleep_data.py
lines 59-99): fold all records into night buckets (failing on a missing
label of a non-nap record), then emit one row per bucket sorted ascending
by night date. -/
def aggregate_sleep_by_night (rs : List SleepRec) : Except String (List NightRow) :=
  match sleepFoldE rs [] with
  | Except.error m => Except.error m
  | Except.ok acc =>
    Except.ok ((acc.map toNightRow).insertionSort (fun a b => a.date ≤ b.date))

/-- Example input of the correction rule: a row on the cutoff date, one the
day before, and one after the cutoff whose correction floors at zero. -/
def ex1 : List JRow :=
  [ { date := some ⟨2024, 11, 20⟩, asleep := some 8, in_bed := some 1,
      unspecified := 0, total := 9, sources := ["Watch"] },
    { date := some ⟨2024, 11, 19⟩, asleep := some 8, in_bed := some 1,
      unspecified := 0, total := 9, sources := ["Watch"] },
    { date := some ⟨2024, 11, 25⟩, asleep := some (1/2), in_bed := some 2,
      unspecified := 0, total := 5/2, sources := ["Watch"] } ]

/-- The corrected output of `ex1`. -/
def ex1out : List JRow :=
  [ { date := some ⟨2024, 11, 20⟩, asleep := some 7, in_bed := some 1,
      unspecified := 0, total := 9, sources := ["Watch"] },
    { date := some ⟨2024, 11, 19⟩, asleep := some 8, in_bed := some 1,
      unspecified := 0, total := 9, sources := ["Watch"] },
    { date := some ⟨2024, 11, 25⟩, asleep := some 0, in_bed := some 2,
      unspecified := 0, total := 5/2, sources := ["Watch"] } ]

/-- A single post-cutoff row used to exhibit double application of the
correction. -/
def ex8 : List JRow :=
  [ { date := some ⟨2024, 11, 20⟩, asleep := some 8, in_bed := some 1,
      unspecified := 0, total := 9, sources := ["Watch"] } ]

/-- A well-formed one-row original artifact for the backup-once scenario. -/
def ex6rows : List JRow :=
  [ { date := some ⟨2024, 11, 21⟩, asleep := some 8, in_bed := some 1,
      unspecified := 0, total := 9, sources := ["Watch"] } ]

/-- Its corrected rows. -/
def ex6corr : List JRow :=
  [ { date := some ⟨2024, 11, 21⟩, asleep := some 7, in_bed := some 1,
      unspecified := 0, total := 9, sources := ["Watch"] } ]

/-- File system before the first engine run: original present, no backup,
no corrected file. -/
def ex6fs : FS := ⟨some ex6rows, none, none⟩

/-- File system after the first engine run. -/
def ex6fs1 : FS := ⟨some ex6rows, some ex6rows, some ex6corr⟩

/-- A row dated before the cutoff with its `asleep` key missing. -/
def ex7row : JRow :=
  { date := some ⟨2024, 1, 1⟩, asleep := none, in_bed := some 1,
    unspecified := 0, total := 9, sources := ["Watch"] }

/-- An artifact containing only `ex7row`. -/
def ex7fs : FS := ⟨some [ex7row], none, none⟩

/-- A row dated after the cutoff with its `in_bed` key missing. -/
def ex7badRow : JRow :=
  { date := some ⟨2024, 12, 1⟩, asleep := some 8, in_bed := none,
    unspecified := 0, total := 9, sources := ["Watch"] }

/-- An artifact containing only `ex7badRow`. -/
def ex7fsBad : FS := ⟨some [ex7badRow], none, none⟩

/-- A raw step record whose value attribute parses to `0`: it is rejected
by the `value <= 0` filter with no diagnostic and no count. -/
def ex9 : List RawStepRec :=
  [ { value := Attr.good 0, startDate := Attr.good ⟨19723, 10, 0, 0⟩,
      endDate := Attr.good ⟨19723, 10, 5, 0⟩, unit := some "count",
      sourceName := some "Phone" } ]

/-- Two raw sleep records: one starting at 01:30 local time, one at 07:00. -/
def ex2 : List RawSleepRec :=
  [ { value := some "HKCategoryValueSleepAnalysisAsleepUnspecified",
      startDate := Attr.good ⟨100, 1, 30, 0⟩, endDate := Attr.good ⟨100, 7, 30, 0⟩,
      sourceName := some "Watch" },
    { value := some "HKCategoryValueSleepAnalysisInBed",
      startDate := Attr.good ⟨100, 7, 0, 0⟩, endDate := Attr.good ⟨100, 8, 0, 0⟩,
      sourceName := some "Watch" } ]

/-- The record `ex2` yields for the 01:30 start. -/
def ex2rec1 : SleepRec :=
  { start_date := ⟨100, 1, 30, 0⟩, end_date := ⟨100, 7, 30, 0⟩, duration := 6,
    value := some "HKCategoryValueSleepAnalysisAsleepUnspecified",
    source := "Watch", night_date := 99, is_nap := false }

/-- The record `ex2` yields for the 07:00 start. -/
def ex2rec2 : SleepRec :=
  { start_date := ⟨100, 7, 0, 0⟩, end_date := ⟨100, 8, 0, 0⟩, duration := 1,
    value := some "HKCategoryValueSleepAnalysisInBed",
    source := "Watch", night_date := 100, is_nap := false }

/-- A raw sleep record starting at 14:00 (a nap). -/
def ex3raw : List RawSleepRec :=
  [ { value := some "HKCategoryValueSleepAnalysisAsleepCore",
      startDate := Attr.good ⟨100, 14, 0, 0⟩, endDate := Attr.good ⟨100, 15, 0, 0⟩,
      sourceName := some "Watch" } ]

/-- The nap record extracted from `ex3raw`. -/
def ex3rec : SleepRec :=
  { start_date := ⟨100, 14, 0, 0⟩, end_date := ⟨100, 15, 0, 0⟩, duration := 1,
    value := some "HKCategoryValueSleepAnalysisAsleepCore",
    source := "Watch", night_date := 100, is_nap := true }

/-- The step records of the end-to-end scenario: two records dated the same
day with values 3000 and 4500 from sources Phone and Watch. -/
def ex4 : List StepRec :=
  [ { start_date := ⟨0, 9, 0, 0⟩, end_date := ⟨0, 9, 5, 0⟩, value := 3000,
      unit := "count", source := "Phone", date := 0 },
    { start_date := ⟨0, 10, 0, 0⟩, end_date := ⟨0, 10, 5, 0⟩, value := 4500,
      unit := "count", source := "Watch", date := 0 } ]

/-- A single resting-heart-rate reading of 0.74: it passes the
`0 < value <= 200` filter, and `round(0.74, 1) = 0.7` falls below the
bucket minimum. -/
def ex5 : List HRRec := [⟨37/50, "S", 0⟩]

/-- Two readings on one day, for the amended-claim witness. -/
def ex5w : List HRRec := [⟨70, "S", 0⟩, ⟨72, "T", 0⟩]

/-- Two non-nap sleep records of one night: eight hours asleep and one hour
in bed. -/
def ex10 : List SleepRec :=
  [ { start_date := ⟨100, 22, 0, 0⟩, end_date := ⟨101, 6, 0, 0⟩, duration := 8,
      value := some "HKCategoryValueSleepAnalysisAsleepCore",
      source := "Watch", night_date := 100, is_nap := false },
    { start_date := ⟨100, 21, 0, 0⟩, end_date := ⟨100, 22, 0, 0⟩, duration := 1,
      value := some "HKCategoryValueSleepAnalysisInBed",
      source := "Watch", night_date := 100, is_nap := false } ]

section

attribute [local semireducible] Rat.add Rat.sub Rat.mul Rat.inv Rat.ofScientific

/-- C1: on a successful correction run, every row dated on or after
2024-11-20 has its `asleep` value replaced by `max(0, asleep - in_bed)`
(with every other field unchanged, as the structure update shows), and
every row dated before 2024-11-20 passes through entirely unchanged. -/
theorem correction_rule_c1 :
    ∀ (data out : List JRow), correct_sleep_data data = Except.ok out →
      out.length = data.length ∧
      ∀ (i : Nat) (h : i < data.length) (h2 : i < out.length) (d : Date),
        (data.get ⟨i, h⟩).date = some d →
        ((dateLe cutoffDate d = true →
            ∀ a b, (data.get ⟨i, h⟩).asleep = some a →
              (data.get ⟨i, h⟩).in_bed = some b →
              out.get ⟨i, h2⟩ =
                { data.get ⟨i, h⟩ with asleep := some (max 0 (a - b)) }) ∧
          (dateLe cutoffDate d = false → out.get ⟨i, h2⟩ = data.get ⟨i, h⟩)) := by
  intro data
  induction data with
  | nil =>
    intro out h
    simp only [correct_sleep_data, correctRows] at h
    cases h
    exact ⟨rfl, fun i hi => absurd hi (Nat.not_lt_zero i)⟩
  | cons e rest ih =>
    intro out h
    simp only [correct_sleep_data, correctRows] at h
    cases he : correctEntry cutoffDate e with
    | error m => rw [he] at h; cases h
    | ok p =>
      obtain ⟨e2, flag⟩ := p
      rw [he] at h
      cases hr : correctRows cutoffDate rest with
      | error m => rw [hr] at h; cases h
      | ok rs =>
        rw [hr] at h
        cases h
        obtain ⟨hlen, hidx⟩ := ih rs hr
        refine ⟨by simp [hlen], ?_⟩
        intro i hi h2 d hd
        cases i with
        | zero =>
          simp only [List.get] at hd ⊢
          constructor
          · intro hcut a b ha hb
            simp [correctEntry, hd, hcut, ha, hb] at he
            obtain ⟨he2, -⟩ := he
            exact he2.symm.trans (by simp [hd, hb])
          · intro hcut
            simp [correctEntry, hd, hcut] at he
            obtain ⟨he2, -⟩ := he
            exact he2.symm
        | succ j =>
          have hj : j < rest.length := Nat.lt_of_succ_lt_succ (by simpa using hi)
          have hj2 : j < rs.length := Nat.lt_of_succ_lt_succ (by simpa using h2)
          simpa using hidx j hj hj2 d (by simpa using hd)

/-- Witness for C1 at the concrete rows of `ex1`: the row on the cutoff
date goes from `asleep = 8, in_bed = 1` to `asleep = 7`, the row the day
before is unchanged, and the row with `asleep = 1/2, in_bed = 2` floors at
`asleep = 0`. -/
theorem correction_rule_c1_witness :
    correct_sleep_data ex1 = Except.ok ex1out ∧
    ex1out.get ⟨0, by decide⟩ =
      { ex1.get ⟨0, by decide⟩ with asleep := some (max 0 ((8 : ℚ) - 1)) } ∧
    ex1out.get ⟨1, by decide⟩ = ex1.get ⟨1, by decide⟩ ∧
    ex1out.get ⟨2, by decide⟩ =
      { ex1.get ⟨2, by decide⟩ with asleep := some (max 0 ((1 : ℚ)/2 - 2)) } ∧
    (ex1out.get ⟨0, by decide⟩).asleep = some 7 ∧
    (ex1out.get ⟨2, by decide⟩).asleep = some 0 := by
  have h := correction_rule_c1 ex1 ex1out (by rfl)
  refine ⟨by rfl, ?_, ?_, ?_, by decide, by decide⟩
  · exact (h.2 0 (by decide) (by decide) ⟨2024, 11, 20⟩ (by rfl)).1 (by rfl) 8 1
      (by rfl) (by rfl)
  · exact (h.2 1 (by decide) (by decide) ⟨2024, 11, 19⟩ (by rfl)).2 (by rfl)
  · exact (h.2 2 (by decide) (by decide) ⟨2024, 11, 25⟩ (by rfl)).1 (by rfl) (1/2) 2
      (by rfl) (by rfl)

/-- C8: the correction is not self-idempotent: there is a data set on which
applying `correct_sleep_data` a second time subtracts `in_bed` again, so
the twice-corrected data differs from the once-corrected data. -/
theorem correction_not_idempotent_c8 :
    ∃ (data out1 out2 : List JRow),
      correct_sleep_data data = Except.ok out1 ∧
      correct_sleep_data out1 = Except.ok out2 ∧
      out2 ≠ out1 := by
  refine ⟨ex8,
    [ { date := some ⟨2024, 11, 20⟩, asleep := some 7, in_bed := some 1,
        unspecified := 0, total := 9, sources := ["Watch"] } ],
    [ { date := some ⟨2024, 11, 20⟩, asleep := some 6, in_bed := some 1,
        unspecified := 0, total := 9, sources := ["Watch"] } ],
    by rfl, by rfl, by decide⟩

/-- C6: the persist phase never overwrites an existing backup, and across
two sequential engine runs started with no backup, both runs leave the one
backup holding the contents of the original as saved by the first run. -/
theorem backup_once_c6 :
    (∀ (fs : FS) (d b : List JRow), fs.backup = some b →
        (save_sleep_data fs d true).backup = some b) ∧
    (∀ (fs : FS) (o : List JRow) (fs1 fs2 : FS),
        fs.original = some o → fs.backup = none →
        runCorrection fs = Except.ok fs1 → runCorrection fs1 = Except.ok fs2 →
        fs1.backup = some o ∧ fs2.backup = some o) := by
  constructor
  · intro fs d b hb
    simp [save_sleep_data, hb]
  · intro fs o fs1 fs2 ho hb h1 h2
    simp only [runCorrection, load_sleep_data, ho] at h1
    cases hc : correct_sleep_data o with
    | error m => rw [hc] at h1; cases h1
    | ok corr =>
      rw [hc] at h1
      cases h1
      have hfs1b : (save_sleep_data fs corr true).backup = some o := by
        simp [save_sleep_data, ho, hb]
      have hfs1o : (save_sleep_data fs corr true).original = some o := by
        simp [save_sleep_data, ho, hb]
      refine ⟨hfs1b, ?_⟩
      simp only [runCorrection, load_sleep_data, hfs1o] at h2
      cases hc2 : correct_sleep_data o with
      | error m => rw [hc2] at h2; cases h2
      | ok corr2 =>
        rw [hc2] at h2
        cases h2
        generalize save_sleep_data fs corr true = g at hfs1b ⊢
        simp [save_sleep_data, hfs1b]

/-- Witness for C6: on the concrete artifact `ex6fs`, both engine runs
produce `ex6fs1`, whose backup is the original rows, and a direct persist
call on a file system that already has a backup leaves it untouched. -/
theorem backup_once_c6_witness :
    runCorrection ex6fs = Except.ok ex6fs1 ∧
    runCorrection ex6fs1 = Except.ok ex6fs1 ∧
    ex6fs1.backup = some ex6rows ∧
    (save_sleep_data ⟨some ex6rows, some ex6rows, none⟩ ex6corr true).backup
      = some ex6rows := by
  refine ⟨by rfl, by rfl,
    (backup_once_c6.2 ex6fs ex6rows ex6fs1 ex6fs1 rfl rfl (by rfl) (by rfl)).1,
    backup_once_c6.1 ⟨some ex6rows, some ex6rows, none⟩ ex6corr ex6rows rfl⟩

/-- Helper for C7: a row with a missing date, or a row on or after the
cutoff missing `asleep` or `in_bed`, makes the correction loop raise. -/
theorem correctRows_error_of_bad :
    ∀ (rows : List JRow) (e : JRow), e ∈ rows →
      (e.date = none ∨ ∃ d, e.date = some d ∧ dateLe cutoffDate d = true ∧
        (e.asleep = none ∨ e.in_bed = none)) →
      ∃ m, correctRows cutoffDate rows = Except.error m := by
  intro rows
  induction rows with
  | nil => intro e he; cases he
  | cons a rest ih =>
    intro e he hbad
    rcases List.mem_cons.mp he with rfl | hmem
    · have herr : ∃ m, correctEntry cutoffDate e = Except.error m := by
        rcases hbad with hd | ⟨d, hd, hcut, hfield⟩
        · exact ⟨"KeyError/ValueError: date", by simp [correctEntry, hd]⟩
        · rcases hfield with ha | hb
          · exact ⟨"KeyError: asleep", by simp [correctEntry, hd, hcut, ha]⟩
          · cases ha : e.asleep with
            | none => exact ⟨"KeyError: asleep", by simp [correctEntry, hd, hcut, ha]⟩
            | some a =>
              exact ⟨"KeyError: in_bed", by simp [correctEntry, hd, hcut, ha, hb]⟩
      obtain ⟨m, hm⟩ := herr
      exact ⟨m, by simp [correctRows, hm]⟩
    · cases hhead : correctEntry cutoffDate a with
      | error m => exact ⟨m, by simp [correctRows, hhead]⟩
      | ok p =>
        obtain ⟨m, hm⟩ := ih e hmem hbad
        obtain ⟨e2, fl⟩ := p
        exact ⟨m, by simp [correctRows, hhead, hm]⟩

/-- C7 counterexample: `ex7row` is missing its `asleep` field, yet because
it is dated before the cutoff the run completes without error and writes
both a backup and a corrected artifact. -/
theorem correction_failure_c7_counterexample :
    ex7fs.original = some [ex7row] ∧ ex7row.asleep = none ∧
    runMain ex7fs = (⟨some [ex7row], some [ex7row], some [ex7row]⟩, none) ∧
    (runMain ex7fs).2 = none := by
  exact ⟨rfl, rfl, by rfl, by rfl⟩

/-- C7 (amended): a missing artifact aborts the run before anything is
processed or written; a row with a missing (or unparseable) date, or a row
dated on or after the cutoff missing `asleep` or `in_bed`, aborts the whole
run with nothing written; a row dated before the cutoff is passed through
unchanged without touching `asleep` or `in_bed`, so missing those fields
there does not fail the run. -/
theorem correction_failure_c7_amended :
    (∀ fs : FS, fs.original = none →
        runMain fs = (fs, some "FileNotFoundError: data/sleep_data.json")) ∧
    (∀ (fs : FS) (rows : List JRow) (e : JRow), fs.original = some rows →
        e ∈ rows →
        (e.date = none ∨ ∃ d, e.date = some d ∧ dateLe cutoffDate d = true ∧
          (e.asleep = none ∨ e.in_bed = none)) →
        ∃ m, runMain fs = (fs, some m)) ∧
    (∀ (e : JRow) (d : Date), e.date = some d → dateLe cutoffDate d = false →
        correctEntry cutoffDate e = Except.ok (e, false)) := by
  refine ⟨?_, ?_, ?_⟩
  · intro fs h
    simp [runMain, runCorrection, load_sleep_data, h]
  · intro fs rows e ho hmem hbad
    obtain ⟨m, hm⟩ := correctRows_error_of_bad rows e hmem hbad
    exact ⟨m, by simp [runMain, runCorrection, load_sleep_data, ho,
      correct_sleep_data, hm]⟩
  · intro e d hd hcut
    simp [correctEntry, hd, hcut]

/-- Witness for C7 (amended): the missing-artifact case, a post-cutoff row
missing `in_bed` failing the run with nothing written, and the pre-cutoff
pass-through of `ex7row`. -/
theorem correction_failure_c7_witness :
    runMain ⟨none, none, none⟩
      = (⟨none, none, none⟩, some "FileNotFoundError: data/sleep_data.json") ∧
    (∃ m, runMain ex7fsBad = (ex7fsBad, some m)) ∧
    correctEntry cutoffDate ex7row = Except.ok (ex7row, false) := by
  refine ⟨correction_failure_c7_amended.1 ⟨none, none, none⟩ rfl,
    correction_failure_c7_amended.2.1 ex7fsBad [ex7badRow] ex7badRow rfl
      (List.mem_singleton.mpr rfl)
      (Or.inr ⟨⟨2024, 12, 1⟩, rfl, by rfl, Or.inr rfl⟩),
    correction_failure_c7_amended.2.2 ex7row ⟨2024, 1, 1⟩ rfl (by rfl)⟩

/-- Helper for C9: each raw step record is exactly one of malformed (one
caught exception, one diagnostic), silently filtered, or accepted. -/
theorem processStep_trichotomy (r : RawStepRec) :
    (stepMalformed r = true ∧ stepAccepted r = false ∧ stepSilent r = false ∧
      ∃ m, processStepRecord r = Except.error m) ∨
    (stepMalformed r = false ∧ stepAccepted r = false ∧ stepSilent r = true ∧
      processStepRecord r = Except.ok none) ∨
    (stepMalformed r = false ∧ stepAccepted r = true ∧ stepSilent r = false ∧
      ∃ rec, processStepRecord r = Except.ok (some rec)) := by
  rcases r with ⟨v, sd, ed, u, sn⟩
  cases v with
  | bad =>
    exact Or.inl ⟨rfl, rfl, rfl, "ValueError: value", rfl⟩
  | missing =>
    cases sd with
    | missing => exact Or.inl ⟨rfl, rfl, rfl, "parse startDate", rfl⟩
    | bad => exact Or.inl ⟨rfl, rfl, rfl, "parse startDate", rfl⟩
    | good s =>
      cases ed with
      | missing => exact Or.inl ⟨rfl, rfl, rfl, "parse endDate", rfl⟩
      | bad => exact Or.inl ⟨rfl, rfl, rfl, "parse endDate", rfl⟩
      | good e =>
        exact Or.inr (Or.inl ⟨rfl, rfl, rfl, rfl⟩)
  | good n =>
    cases sd with
    | missing => exact Or.inl ⟨rfl, rfl, rfl, "parse startDate", rfl⟩
    | bad => exact Or.inl ⟨rfl, rfl, rfl, "parse startDate", rfl⟩
    | good s =>
      cases ed with
      | missing => exact Or.inl ⟨rfl, rfl, rfl, "parse endDate", rfl⟩
      | bad => exact Or.inl ⟨rfl, rfl, rfl, "parse endDate", rfl⟩
      | good e =>
        by_cases h : n ≤ 0
        · refine Or.inr (Or.inl ⟨rfl, ?_, ?_, ?_⟩)
          · simp [stepAccepted, stepMalformed, stepVal, attrBad, attrGood] <;>
              omega
          · simp [stepSilent, stepMalformed, stepVal, attrBad, attrGood] <;>
              omega
          · simp [processStepRecord, processStepDates, h]
        · refine Or.inr (Or.inr ⟨rfl, ?_, ?_, ?_⟩)
          · simp [stepAccepted, stepMalformed, stepVal, attrBad, attrGood] <;>
              omega
          · simp [stepSilent, stepMalformed, stepVal, attrBad, attrGood] <;>
              omega
          · exact ⟨StepRec.mk s e n (u.getD "count") (sn.getD "Unknown") s.day,
              by simp [processStepRecord, processStepDates, h]⟩

/-- C9 counterexample: a raw record whose value parses to `0` is rejected
by the filter, yet the number of per-record diagnostics stays `0`: the code
maintains no count of skipped records (its end-of-run report is the count
of accepted records). -/
theorem skip_counter_c9_counterexample :
    (get_step_count_records ex9).2 = 0 ∧
    (get_step_count_records ex9).1.length = 0 ∧
    ex9.countP (fun r => !stepAccepted r) = 1 ∧
    (get_step_count_records ex9).2 ≠ ex9.countP (fun r => !stepAccepted r) := by
  exact ⟨rfl, rfl, by decide, by decide⟩

/-- C9 (amended): extraction never aborts on a bad record; each malformed
record is skipped with exactly one per-record diagnostic and the run
continues; filter rejections are skipped silently with no diagnostic; no
skipped-record count exists — the diagnostic tally counts only malformed
records, and accepted + malformed + silently-filtered partition the
input. -/
theorem skip_and_continue_c9_amended :
    ∀ raws : List RawStepRec,
      (get_step_count_records raws).1.length = raws.countP stepAccepted ∧
      (get_step_count_records raws).2 = raws.countP stepMalformed ∧
      raws.countP stepAccepted + raws.countP stepMalformed
        + raws.countP stepSilent = raws.length := by
  intro raws
  induction raws with
  | nil => simp [get_step_count_records]
  | cons r rest ih =>
    obtain ⟨h1, h2, h3⟩ := ih
    rcases processStep_trichotomy r with ⟨hm, ha, hs, m, hp⟩ |
      ⟨hm, ha, hs, hp⟩ | ⟨hm, ha, hs, rec, hp⟩ <;>
      simp [get_step_count_records, hp, List.countP_cons, hm, ha, hs,
        h1, h2, h3] <;> omega

end

/-- Unfolding lemma for dictionary lookup on a cons cell. -/
theorem blookup_cons {β : Type} (x : Int × β) (xs : List (Int × β)) (k : Int) :
    blookup (x :: xs) k = if x.1 = k then some x else blookup xs k := by
  by_cases h : x.1 = k
  · simp [blookup, List.find?_cons_of_pos, h]
  · simp [blookup, List.find?_cons_of_neg, h]

/-- Lookup in the empty dictionary. -/
theorem blookup_nil {β : Type} (k : Int) : blookup ([] : List (Int × β)) k = none :=
  rfl

/-- Membership in `saddList` is membership in the old set or equality with
the added element. -/
theorem saddList_mem (t s : String) (l : List String) :
    t ∈ saddList s l ↔ t ∈ l ∨ t = s := by
  unfold saddList
  split
  · rename_i h
    constructor
    · exact Or.inl
    · rintro (h' | rfl)
      · exact h'
      · exact h
  · simp [List.mem_append]

/-- `saddList` preserves freedom from duplicates. -/
theorem saddList_nodup (s : String) (l : List String) (h : l.Nodup) :
    (saddList s l).Nodup := by
  unfold saddList
  split
  · exact h
  · rename_i hs
    simp [List.nodup_append, h, hs]

/-- `saddList` never returns the empty list. -/
theorem saddList_ne_nil (s : String) (l : List String) : saddList s l ≠ [] := by
  unfold saddList
  split
  · rename_i h
    exact List.ne_nil_of_mem h
  · simp

/-- The keys after a `bupsert`: unchanged when the key was present, the key
appended otherwise. -/
theorem bupsert_keys {β : Type} (k : Int) (f : β → β) (dflt : β)
    (acc : List (Int × β)) :
    (bupsert k f dflt acc).map Prod.fst =
      if k ∈ acc.map Prod.fst then acc.map Prod.fst
      else acc.map Prod.fst ++ [k] := by
  induction acc with
  | nil => simp [bupsert]
  | cons a as ih =>
    simp only [bupsert]
    by_cases h : a.1 = k
    · simp [h]
    · simp only [List.map_cons]
      rw [if_neg h]
      rw [List.map_cons, ih]
      by_cases hk : k ∈ as.map Prod.fst
      · simp [hk, h, Ne.symm h]
      · simp [hk, h, Ne.symm h]

/-- Membership among the keys after a `bupsert`. -/
theorem bupsert_keys_mem {β : Type} (q k : Int) (f : β → β) (dflt : β)
    (acc : List (Int × β)) :
    q ∈ (bupsert k f dflt acc).map Prod.fst ↔
      q ∈ acc.map Prod.fst ∨ q = k := by
  rw [bupsert_keys]
  split
  · rename_i h
    constructor
    · exact Or.inl
    · rintro (h' | rfl)
      · exact h'
      · exact h
  · simp [List.mem_append]

/-- `bupsert` keeps the keys duplicate-free. -/
theorem bupsert_nodupkeys {β : Type} (k : Int) (f : β → β) (dflt : β)
    (acc : List (Int × β)) (h : (acc.map Prod.fst).Nodup) :
    ((bupsert k f dflt acc).map Prod.fst).Nodup := by
  rw [bupsert_keys]
  split
  · exact h
  · rename_i hk
    simp [List.nodup_append, h, hk]

/-- Looking up the updated key after a `bupsert`. -/
theorem blookup_bupsert_self {β : Type} (k : Int) (f : β → β) (dflt : β)
    (acc : List (Int × β)) :
    blookup (bupsert k f dflt acc) k =
      some (k, f (((blookup acc k).map Prod.snd).getD dflt)) := by
  induction acc with
  | nil => simp [bupsert, blookup]
  | cons a as ih =>
    rcases a with ⟨ak, av⟩
    by_cases h : ak = k
    · subst h
      simp [bupsert, blookup_cons]
    · simp only [bupsert]
      rw [if_neg h]
      rw [blookup_cons, if_neg h, blookup_cons, if_neg h, ih]

/-- Looking up a different key after a `bupsert`. -/
theorem blookup_bupsert_ne {β : Type} (q k : Int) (f : β → β) (dflt : β)
    (acc : List (Int × β)) (h : q ≠ k) :
    blookup (bupsert k f dflt acc) q = blookup acc q := by
  induction acc with
  | nil =>
    rw [show bupsert k f dflt [] = [(k, f dflt)] from rfl, blookup_cons]
    exact if_neg (Ne.symm h)
  | cons a as ih =>
    rcases a with ⟨ak, av⟩
    by_cases hak : ak = k
    · subst hak
      rw [show bupsert ak f dflt ((ak, av) :: as) = (ak, f av) :: as from by
        simp [bupsert]]
      rw [blookup_cons, blookup_cons]
      rw [if_neg (Ne.symm h), if_neg (Ne.symm h)]
    · rw [show bupsert k f dflt ((ak, av) :: as) = (ak, av) :: bupsert k f dflt as
        from by simp [bupsert, hak]]
      rw [blookup_cons, blookup_cons]
      by_cases haq : ak = q
      · rw [if_pos haq, if_pos haq]
      · rw [if_neg haq, if_neg haq, ih]

/-- The entry found by a lookup carries the looked-up key. -/
theorem blookup_key {β : Type} (acc : List (Int × β)) (k : Int) (p : Int × β)
    (h : blookup acc k = some p) : p.1 = k := by
  have := List.find?_some h
  simpa using this

/-- Characterization of lookup after a bucket fold: the bucket holds the
fold of the matching records over the prior bucket value (or the default
when the key was fresh), and absent keys stay absent. -/
theorem bfold_blookup {ρ β : Type} (key : ρ → Int) (upd : ρ → β → β) (dflt : β) :
    ∀ (rs : List ρ) (acc : List (Int × β)) (k : Int),
      blookup (bfold key upd dflt rs acc) k =
        match blookup acc k with
        | some p => some (k, (rs.filter (fun r => decide (key r = k))).foldl
            (fun b r => upd r b) p.2)
        | none =>
          if rs.any (fun r => decide (key r = k)) then
            some (k, (rs.filter (fun r => decide (key r = k))).foldl
              (fun b r => upd r b) dflt)
          else none := by
  intro rs
  induction rs with
  | nil =>
    intro acc k
    cases h : blookup acc k with
    | none => simp [bfold, h]
    | some v =>
      have hk := blookup_key acc k v h
      rw [show bfold key upd dflt [] acc = acc from rfl, h, ← hk]
      rfl
  | cons r rest ih =>
    intro acc k
    by_cases hk : key r = k
    · rw [bfold, ih, hk, blookup_bupsert_self]
      cases h : blookup acc k <;>
        simp [h, hk, List.filter_cons, List.any_cons]
    · rw [bfold, ih, blookup_bupsert_ne k (key r) (upd r) dflt acc (Ne.symm hk)]
      cases h : blookup acc k <;>
        simp [h, hk, List.filter_cons, List.any_cons]

/-- Lookup after a bucket fold started from the empty dictionary. -/
theorem bfold_nil_blookup {ρ β : Type} (key : ρ → Int) (upd : ρ → β → β)
    (dflt : β) (rs : List ρ) (k : Int) :
    blookup (bfold key upd dflt rs []) k =
      if rs.any (fun r => decide (key r = k)) then
        some (k, (rs.filter (fun r => decide (key r = k))).foldl
          (fun b r => upd r b) dflt)
      else none := by
  rw [bfold_blookup, blookup_nil]

/-- The keys after a bucket fold are the old keys plus the record keys. -/
theorem bfold_keys {ρ β : Type} (key : ρ → Int) (upd : ρ → β → β) (dflt : β) :
    ∀ (rs : List ρ) (acc : List (Int × β)) (k : Int),
      k ∈ (bfold key upd dflt rs acc).map Prod.fst ↔
        k ∈ acc.map Prod.fst ∨ ∃ r ∈ rs, key r = k := by
  intro rs
  induction rs with
  | nil => intro acc k; simp [bfold]
  | cons r rest ih =>
    intro acc k
    rw [bfold, ih]
    rw [bupsert_keys_mem]
    constructor
    · rintro ((h | rfl) | ⟨r', hr', hk⟩)
      · exact Or.inl h
      · exact Or.inr ⟨r, List.mem_cons_self r rest, rfl⟩
      · exact Or.inr ⟨r', List.mem_cons_of_mem r hr', hk⟩
    · rintro (h | ⟨r', hr', hk⟩)
      · exact Or.inl (Or.inl h)
      · rcases List.mem_cons.mp hr' with rfl | hmem
        · exact Or.inl (Or.inr hk.symm)
        · exact Or.inr ⟨r', hmem, hk⟩

/-- A bucket fold keeps the keys duplicate-free. -/
theorem bfold_nodupkeys {ρ β : Type} (key : ρ → Int) (upd : ρ → β → β)
    (dflt : β) :
    ∀ (rs : List ρ) (acc : List (Int × β)), (acc.map Prod.fst).Nodup →
      ((bfold key upd dflt rs acc).map Prod.fst).Nodup := by
  intro rs
  induction rs with
  | nil => intro acc h; exact h
  | cons r rest ih =>
    intro acc h
    exact ih _ (bupsert_nodupkeys _ _ _ _ h)

/-- In a dictionary with duplicate-free keys, looking up an entry's own key
returns that entry. -/
theorem blookup_of_mem {β : Type} :
    ∀ (acc : List (Int × β)), (acc.map Prod.fst).Nodup →
      ∀ p ∈ acc, blookup acc p.1 = some p := by
  intro acc
  induction acc with
  | nil => intro _ p hp; cases hp
  | cons a as ih =>
    intro hnd p hp
    rcases List.mem_cons.mp hp with rfl | hmem
    · rw [blookup_cons, if_pos rfl]
    · rw [blookup_cons]
      have hne : a.1 ≠ p.1 := by
        intro he
        exact (List.nodup_cons.mp hnd).1
          (he ▸ List.mem_map_of_mem Prod.fst hmem)
      rw [if_neg hne]
      exact ih (List.nodup_cons.mp hnd).2 p hmem

/-- Every entry of a bucket fold from the empty dictionary is the fold of
exactly the records carrying its key. -/
theorem bfold_mem_eq {ρ β : Type} (key : ρ → Int) (upd : ρ → β → β) (dflt : β)
    (rs : List ρ) (p : Int × β) (hmem : p ∈ bfold key upd dflt rs []) :
    p.2 = (rs.filter (fun r => decide (key r = p.1))).foldl
      (fun b r => upd r b) dflt := by
  have hnd := bfold_nodupkeys key upd dflt rs [] (by simp)
  have hl := blookup_of_mem _ hnd p hmem
  rw [bfold_nil_blookup] at hl
  split at hl
  · have h2 := Option.some.inj hl
    exact (congrArg Prod.snd h2).symm
  · cases hl

/-- Folding step records into one bucket accumulates the sum of values and
the set of sources. -/
theorem stepFoldl_char :
    ∀ (l : List StepRec) (t : Int) (src : List String),
      ((l.foldl (fun b r => stepUpd r b) (t, src)).1
          = t + (l.map (fun r => r.value)).sum) ∧
      (∀ s, s ∈ (l.foldl (fun b r => stepUpd r b) (t, src)).2 ↔
          s ∈ src ∨ s ∈ l.map (fun r => r.source)) ∧
      (src.Nodup → (l.foldl (fun b r => stepUpd r b) (t, src)).2.Nodup) := by
  intro l
  induction l with
  | nil => intro t src; simp
  | cons r rest ih =>
    intro t src
    rw [List.foldl_cons,
      show stepUpd r (t, src) = (t + r.value, saddList r.source src) from rfl]
    obtain ⟨h1, h2, h3⟩ := ih (t + r.value) (saddList r.source src)
    refine ⟨?_, ?_, ?_⟩
    · rw [h1, List.map_cons, List.sum_cons]
      ring
    · intro s
      rw [h2 s, saddList_mem, List.map_cons]
      simp only [List.mem_cons]
      tauto
    · intro hnd
      exact h3 (saddList_nodup _ _ hnd)

/-- C4: the daily step aggregation emits exactly one row per calendar date
carrying at least one record (dates are duplicate-free and a date appears
iff some record has it), each row's `steps` is the sum of the values of
that date's records and its `sources` is exactly the set of their source
names, and the rows are sorted ascending by date. -/
theorem step_daily_aggregation_c4 :
    ∀ rs : List StepRec,
      ((aggregate_by_day rs).map StepRow.date).Nodup ∧
      (∀ d : Int, d ∈ (aggregate_by_day rs).map StepRow.date ↔
        ∃ r ∈ rs, r.date = d) ∧
      (∀ row ∈ aggregate_by_day rs,
        row.steps = stepsOn rs row.date ∧ row.sources.Nodup ∧
        (∀ s, s ∈ row.sources ↔ s ∈ stepSourcesOn rs row.date)) ∧
      List.Pairwise (fun a b : StepRow => a.date ≤ b.date)
        (aggregate_by_day rs) := by
  intro rs
  unfold aggregate_by_day
  have hperm := List.perm_insertionSort (fun a b : StepRow => a.date ≤ b.date)
    ((bfold (fun r => r.date) stepUpd (0, ([] : List String)) rs []).map
      (fun p => { date := p.1, steps := p.2.1, sources := p.2.2 : StepRow }))
  have hnodupkeys := bfold_nodupkeys (fun r => r.date) stepUpd
    ((0 : Int), ([] : List String)) rs [] (by simp)
  have hmapdates :
      ((bfold (fun r => r.date) stepUpd (0, ([] : List String)) rs []).map
        (fun p => { date := p.1, steps := p.2.1, sources := p.2.2 : StepRow })).map
          StepRow.date
      = (bfold (fun r => r.date) stepUpd (0, ([] : List String)) rs []).map
          Prod.fst := by
    rw [List.map_map]
    rfl
  refine ⟨?_, ?_, ?_, ?_⟩
  · exact ((hperm.map StepRow.date).nodup_iff).mpr (hmapdates ▸ hnodupkeys)
  · intro d
    rw [(hperm.map StepRow.date).mem_iff, hmapdates, bfold_keys]
    simp
  · intro row hrow
    have hrow2 := hperm.mem_iff.mp hrow
    obtain ⟨p, hp, rfl⟩ := List.mem_map.mp hrow2
    have hchar := bfold_mem_eq (fun r => r.date) stepUpd
      ((0 : Int), ([] : List String)) rs p hp
    obtain ⟨h1, h2, h3⟩ :=
      stepFoldl_char (rs.filter (fun r => decide (r.date = p.1))) 0 []
    refine ⟨?_, ?_, ?_⟩
    · show p.2.1 = stepsOn rs p.1
      rw [hchar, h1, stepsOn]
      ring
    · show p.2.2.Nodup
      rw [hchar]
      exact h3 List.nodup_nil
    · intro s
      show s ∈ p.2.2 ↔ _
      rw [hchar, h2 s, stepSourcesOn]
      simp
  · letI : IsTotal StepRow (fun a b => a.date ≤ b.date) :=
      ⟨fun a b => Int.le_total a.date b.date⟩
    letI : IsTrans StepRow (fun a b => a.date ≤ b.date) :=
      ⟨fun _ _ _ hab hbc => le_trans hab hbc⟩
    exact List.sorted_insertionSort _ _

/-- Witness for C4 at the end-to-end scenario: the two records dated day 0
with values 3000 and 4500 from Phone and Watch produce the single row with
7500 steps and both sources. -/
theorem step_daily_aggregation_c4_witness :
    aggregate_by_day ex4 = [⟨0, 7500, ["Phone", "Watch"]⟩] ∧
    (7500 : Int) = stepsOn ex4 0 ∧
    ((0 : Int) ∈ (aggregate_by_day ex4).map StepRow.date) ∧
    ("Phone" ∈ stepSourcesOn ex4 0 ∧ "Watch" ∈ stepSourcesOn ex4 0) := by
  have h := step_daily_aggregation_c4 ex4
  refine ⟨by decide, ?_, ?_, ?_, ?_⟩
  · exact (h.2.2.1 ⟨0, 7500, ["Phone", "Watch"]⟩ (by decide)).1
  · exact (h.2.1 0).mpr ⟨⟨⟨0, 9, 0, 0⟩, ⟨0, 9, 5, 0⟩, 3000, "count", "Phone", 0⟩,
      by decide, rfl⟩
  · exact ((h.2.2.1 ⟨0, 7500, ["Phone", "Watch"]⟩ (by decide)).2.2 "Phone").mp
      (by decide)
  · exact ((h.2.2.1 ⟨0, 7500, ["Phone", "Watch"]⟩ (by decide)).2.2 "Watch").mp
      (by decide)

section

attribute [local semireducible] Rat.add Rat.sub Rat.mul Rat.inv Rat.ofScientific

/-- A left fold of `min` stays below its initial value. -/
theorem foldl_min_le_init : ∀ (xs : List ℚ) (a : ℚ), xs.foldl min a ≤ a := by
  intro xs
  induction xs with
  | nil => intro a; exact le_refl a
  | cons x xs ih => intro a; exact le_trans (ih (min a x)) (min_le_left a x)

/-- A left fold of `min` stays below every member. -/
theorem foldl_min_le_mem :
    ∀ (xs : List ℚ) (a x : ℚ), x ∈ xs → xs.foldl min a ≤ x := by
  intro xs
  induction xs with
  | nil => intro a x hx; cases hx
  | cons y ys ih =>
    intro a x hx
    rcases List.mem_cons.mp hx with rfl | hmem
    · exact le_trans (foldl_min_le_init ys (min a x)) (min_le_right a x)
    · exact ih (min a y) x hmem

/-- A left fold of `max` stays above its initial value. -/
theorem init_le_foldl_max : ∀ (xs : List ℚ) (a : ℚ), a ≤ xs.foldl max a := by
  intro xs
  induction xs with
  | nil => intro a; exact le_refl a
  | cons x xs ih => intro a; exact le_trans (le_max_left a x) (ih (max a x))

/-- A left fold of `max` stays above every member. -/
theorem mem_le_foldl_max :
    ∀ (xs : List ℚ) (a x : ℚ), x ∈ xs → x ≤ xs.foldl max a := by
  intro xs
  induction xs with
  | nil => intro a x hx; cases hx
  | cons y ys ih =>
    intro a x hx
    rcases List.mem_cons.mp hx with rfl | hmem
    · exact le_trans (le_max_right a x) (init_le_foldl_max ys (max a x))
    · exact ih (max a y) x hmem

/-- `pymin` bounds every member from below. -/
theorem pymin_le_mem (l : List ℚ) (x : ℚ) (hx : x ∈ l) : pymin l ≤ x := by
  cases l with
  | nil => cases hx
  | cons y ys =>
    rcases List.mem_cons.mp hx with rfl | hmem
    · exact foldl_min_le_init ys x
    · exact foldl_min_le_mem ys y x hmem

/-- `pymax` bounds every member from above. -/
theorem mem_le_pymax (l : List ℚ) (x : ℚ) (hx : x ∈ l) : x ≤ pymax l := by
  cases l with
  | nil => cases hx
  | cons y ys =>
    rcases List.mem_cons.mp hx with rfl | hmem
    · exact init_le_foldl_max ys x
    · exact mem_le_foldl_max ys y x hmem

/-- A uniform lower bound on the members bounds the sum from below. -/
theorem length_mul_le_sum :
    ∀ (l : List ℚ) (c : ℚ), (∀ x ∈ l, c ≤ x) → (l.length : ℚ) * c ≤ l.sum := by
  intro l
  induction l with
  | nil => intro c _; simp
  | cons x xs ih =>
    intro c h
    have hx := h x (List.mem_cons_self x xs)
    have hxs := ih c (fun y hy => h y (List.mem_cons_of_mem x hy))
    rw [List.length_cons, List.sum_cons]
    push_cast
    linarith

/-- A uniform upper bound on the members bounds the sum from above. -/
theorem sum_le_length_mul :
    ∀ (l : List ℚ) (c : ℚ), (∀ x ∈ l, x ≤ c) → l.sum ≤ (l.length : ℚ) * c := by
  intro l
  induction l with
  | nil => intro c _; simp
  | cons x xs ih =>
    intro c h
    have hx := h x (List.mem_cons_self x xs)
    have hxs := ih c (fun y hy => h y (List.mem_cons_of_mem x hy))
    rw [List.length_cons, List.sum_cons]
    push_cast
    linarith

/-- The mean of a non-empty list lies above its minimum. -/
theorem pymin_le_meanQ (l : List ℚ) (h : l ≠ []) : pymin l ≤ meanQ l := by
  have hlen : 0 < (l.length : ℚ) := by
    exact_mod_cast List.length_pos.mpr h
  have hsum := length_mul_le_sum l (pymin l) (fun x hx => pymin_le_mem l x hx)
  rw [meanQ, le_div_iff hlen, mul_comm]
  exact hsum

/-- The mean of a non-empty list lies below its maximum. -/
theorem meanQ_le_pymax (l : List ℚ) (h : l ≠ []) : meanQ l ≤ pymax l := by
  have hlen : 0 < (l.length : ℚ) := by
    exact_mod_cast List.length_pos.mpr h
  have hsum := sum_le_length_mul l (pymax l) (fun x hx => mem_le_pymax l x hx)
  rw [meanQ, div_le_iff hlen, mul_comm]
  exact hsum

/-- Round-half-to-even moves a rational by at most one half. -/
theorem rhe_bounds (q : ℚ) : q - 1/2 ≤ (rhe q : ℚ) ∧ (rhe q : ℚ) ≤ q + 1/2 := by
  have hfl : (⌊q⌋ : ℚ) ≤ q := Int.floor_le q
  have hfu : q < (⌊q⌋ : ℚ) + 1 := Int.lt_floor_add_one q
  by_cases h1 : q - ⌊q⌋ < 1/2
  · rw [rhe, if_pos h1]
    constructor <;> linarith
  · by_cases h2 : (1 : ℚ)/2 < q - ⌊q⌋
    · rw [rhe, if_neg h1, if_pos h2]
      constructor <;> push_cast <;> linarith
    · by_cases h3 : ⌊q⌋ % 2 = 0
      · rw [rhe, if_neg h1, if_neg h2, if_pos h3]
        constructor <;> linarith
      · rw [rhe, if_neg h1, if_neg h2, if_neg h3]
        constructor <;> push_cast <;> linarith

/-- Rounding to one decimal moves a rational by at most one twentieth. -/
theorem round1_bounds (q : ℚ) :
    q - 1/20 ≤ round1 q ∧ round1 q ≤ q + 1/20 := by
  obtain ⟨h1, h2⟩ := rhe_bounds (10 * q)
  constructor <;> rw [round1] <;> linarith

/-- Folding heart-rate records into one bucket appends the values in order
and accumulates the set of sources. -/
theorem hrFoldl_char :
    ∀ (l : List HRRec) (vs : List ℚ) (src : List String),
      ((l.foldl (fun b r => hrUpd r b) (vs, src)).1
          = vs ++ l.map (fun r => r.value)) ∧
      (∀ s, s ∈ (l.foldl (fun b r => hrUpd r b) (vs, src)).2 ↔
          s ∈ src ∨ s ∈ l.map (fun r => r.source)) ∧
      (src.Nodup → (l.foldl (fun b r => hrUpd r b) (vs, src)).2.Nodup) := by
  intro l
  induction l with
  | nil => intro vs src; simp
  | cons r rest ih =>
    intro vs src
    rw [List.foldl_cons,
      show hrUpd r (vs, src) = (vs ++ [r.value], saddList r.source src) from rfl]
    obtain ⟨h1, h2, h3⟩ := ih (vs ++ [r.value]) (saddList r.source src)
    refine ⟨?_, ?_, ?_⟩
    · rw [h1, List.map_cons, List.append_assoc]
      rfl
    · intro s
      rw [h2 s, saddList_mem, List.map_cons]
      simp only [List.mem_cons]
      tauto
    · intro hnd
      exact h3 (saddList_nodup _ _ hnd)

/-- C5 counterexample: the single valid reading 0.74 yields a row whose
`resting_hr` is `round(0.74, 1) = 0.7`, strictly below its `min_hr = 0.74`,
so `min_hr ≤ resting_hr` fails on this bucket. -/
theorem hr_rounding_c5_counterexample :
    aggregate_by_day_hr ex5 = [⟨0, 7/10, 37/50, 37/50, 1, ["S"]⟩] ∧
    (∃ row ∈ aggregate_by_day_hr ex5, ¬ (row.min_hr ≤ row.resting_hr)) := by
  refine ⟨by decide, ⟨0, 7/10, 37/50, 37/50, 1, ["S"]⟩, by decide, by decide⟩

/-- C5 (amended): every row of the resting-heart-rate aggregation carries
the rounded arithmetic mean as `resting_hr`, the exact minimum, maximum and
count of its bucket's values, its sources are exactly the contributing
source names, and `resting_hr` lies within `[min_hr - 0.05, max_hr + 0.05]`
(the unrounded mean lies within `[min_hr, max_hr]`; rounding to one decimal
can move it past an endpoint by at most 0.05, as the counterexample
forces). -/
theorem hr_aggregation_c5_amended :
    ∀ (rs : List HRRec) (row : HRRow), row ∈ aggregate_by_day_hr rs →
      row.resting_hr = round1 (meanQ (hrValuesOn rs row.date)) ∧
      row.min_hr = pymin (hrValuesOn rs row.date) ∧
      row.max_hr = pymax (hrValuesOn rs row.date) ∧
      row.readings = (hrValuesOn rs row.date).length ∧
      hrValuesOn rs row.date ≠ [] ∧
      (∀ s, s ∈ row.sources ↔ s ∈ hrSourcesOn rs row.date) ∧
      row.min_hr - 1/20 ≤ row.resting_hr ∧
      row.resting_hr ≤ row.max_hr + 1/20 := by
  intro rs row hrow
  unfold aggregate_by_day_hr at hrow
  have hrow2 := (List.perm_insertionSort (fun a b : HRRow => a.date ≤ b.date)
    _).mem_iff.mp hrow
  obtain ⟨p, hp, hg⟩ := List.mem_filterMap.mp hrow2
  have hchar := bfold_mem_eq (fun r => r.date) hrUpd
    (([], []) : List ℚ × List String) rs p hp
  obtain ⟨h1, h2, h3⟩ :=
    hrFoldl_char (rs.filter (fun r => decide (r.date = p.1))) [] []
  have hvals : p.2.1 = hrValuesOn rs p.1 := by
    rw [hchar, h1]
    rfl
  by_cases hemp : p.2.1.isEmpty
  · rw [if_pos hemp] at hg
    cases hg
  · rw [if_neg hemp] at hg
    cases hg
    have hne : hrValuesOn rs p.1 ≠ [] := by
      rw [← hvals]
      exact fun he => hemp (by rw [he]; rfl)
    have hmin := pymin_le_meanQ (hrValuesOn rs p.1) hne
    have hmax := meanQ_le_pymax (hrValuesOn rs p.1) hne
    have hrnd := round1_bounds (meanQ (hrValuesOn rs p.1))
    refine ⟨by rw [hvals], by rw [hvals], by rw [hvals], by rw [hvals], hne,
      ?_, ?_, ?_⟩
    · intro s
      show s ∈ p.2.2 ↔ _
      rw [hchar, h2 s, hrSourcesOn]
      simp
    · show pymin p.2.1 - 1/20 ≤ round1 (meanQ p.2.1)
      rw [hvals]
      linarith [hrnd.1]
    · show round1 (meanQ p.2.1) ≤ pymax p.2.1 + 1/20
      rw [hvals]
      linarith [hrnd.2]

/-- Witness for C5 (amended) at two readings 70 and 72 on one day: the row
is `(71, 70, 72, 2)` and the rounded mean lies within the widened bounds. -/
theorem hr_aggregation_c5_witness :
    aggregate_by_day_hr ex5w = [⟨0, 71, 70, 72, 2, ["S", "T"]⟩] ∧
    (71 : ℚ) = round1 (meanQ (hrValuesOn ex5w 0)) ∧
    (70 : ℚ) = pymin (hrValuesOn ex5w 0) ∧
    (72 : ℚ) = pymax (hrValuesOn ex5w 0) ∧
    (2 : Nat) = (hrValuesOn ex5w 0).length ∧
    ((70 : ℚ) - 1/20 ≤ 71 ∧ (71 : ℚ) ≤ 72 + 1/20) := by
  have h := hr_aggregation_c5_amended ex5w ⟨0, 71, 70, 72, 2, ["S", "T"]⟩
    (by decide)
  exact ⟨by decide, h.1, h.2.1, h.2.2.1, h.2.2.2.1, h.2.2.2.2.2.2⟩

end

section

attribute [local semireducible] Rat.add Rat.sub Rat.mul Rat.inv Rat.ofScientific

/-- Shape of every record accepted by the sleep extractor: the night date
and the nap flag are the stated functions of the local start timestamp. -/
theorem processSleep_ok (r : RawSleepRec) (rec : SleepRec)
    (h : processSleepRecord r = Except.ok (some rec)) :
    rec.night_date = (if rec.start_date.hour < 6 then rec.start_date.day - 1
      else rec.start_date.day) ∧
    rec.is_nap = (decide (rec.start_date.hour < 18) &&
      decide (rec.start_date.hour > 8)) := by
  cases hs : r.startDate with
  | missing => simp [processSleepRecord, hs] at h
  | bad => simp [processSleepRecord, hs] at h
  | good s =>
    cases he : r.endDate with
    | missing => simp [processSleepRecord, hs, he] at h
    | bad => simp [processSleepRecord, hs, he] at h
    | good e =>
      simp only [processSleepRecord, hs, he] at h
      split at h
      · simp at h
      · simp only [Except.ok.injEq, Option.some.injEq] at h
        subst h
        exact ⟨rfl, rfl⟩

/-- Every record in the sleep extractor's output satisfies the shape. -/
theorem get_sleep_records_shape :
    ∀ (raws : List RawSleepRec) (rec : SleepRec),
      rec ∈ (get_sleep_records raws).1 →
      rec.night_date = (if rec.start_date.hour < 6 then rec.start_date.day - 1
        else rec.start_date.day) ∧
      rec.is_nap = (decide (rec.start_date.hour < 18) &&
        decide (rec.start_date.hour > 8)) := by
  intro raws
  induction raws with
  | nil => intro rec h; simp [get_sleep_records] at h
  | cons r rest ih =>
    intro rec h
    simp only [get_sleep_records] at h
    cases hp : processSleepRecord r with
    | error m =>
      rw [hp] at h
      exact ih rec h
    | ok o =>
      cases o with
      | none =>
        rw [hp] at h
        exact ih rec h
      | some rec0 =>
        rw [hp] at h
        rcases List.mem_cons.mp h with rfl | hmem
        · exact processSleep_ok r rec hp
        · exact ih rec hmem

/-- C2: every record accepted by the sleep extractor buckets to the
previous calendar day when its local start hour is below six, and to its
own start day otherwise. -/
theorem night_bucket_c2 :
    ∀ (raws : List RawSleepRec) (rec : SleepRec),
      rec ∈ (get_sleep_records raws).1 →
      rec.night_date = (if rec.start_date.hour < 6 then rec.start_date.day - 1
        else rec.start_date.day) := by
  intro raws rec h
  exact (get_sleep_records_shape raws rec h).1

/-- Witness for C2: the record starting 01:30 buckets to day 99 (the
previous day), the record starting 07:00 buckets to its own day 100. -/
theorem night_bucket_c2_witness :
    (ex2rec1 ∈ (get_sleep_records ex2).1 ∧ ex2rec1.start_date.hour = 1 ∧
      ex2rec1.night_date =
        (if ex2rec1.start_date.hour < 6 then ex2rec1.start_date.day - 1
         else ex2rec1.start_date.day) ∧
      ex2rec1.night_date = ex2rec1.start_date.day - 1) ∧
    (ex2rec2 ∈ (get_sleep_records ex2).1 ∧ ex2rec2.start_date.hour = 7 ∧
      ex2rec2.night_date =
        (if ex2rec2.start_date.hour < 6 then ex2rec2.start_date.day - 1
         else ex2rec2.start_date.day) ∧
      ex2rec2.night_date = ex2rec2.start_date.day) := by
  refine ⟨⟨by decide, rfl, night_bucket_c2 ex2 ex2rec1 (by decide), by decide⟩,
    ⟨by decide, rfl, night_bucket_c2 ex2 ex2rec2 (by decide), by decide⟩⟩

/-- Skipping naps happens before anything touches a bucket, so the fold
over all records equals the fold over the non-nap records. -/
theorem sleepFoldE_filter :
    ∀ (rs : List SleepRec) (acc : List (Int × NightAcc)),
      sleepFoldE rs acc = sleepFoldE (rs.filter (fun r => !r.is_nap)) acc := by
  intro rs
  induction rs with
  | nil => intro acc; rfl
  | cons r rest ih =>
    intro acc
    by_cases hnap : r.is_nap = true
    · simp [sleepFoldE, sleepStep, hnap, List.filter_cons, ih]
    · cases hv : r.value with
      | none => simp [sleepFoldE, sleepStep, hnap, hv, List.filter_cons]
      | some v => simp [sleepFoldE, sleepStep, hnap, hv, List.filter_cons, ih]

/-- Keys present after a successful sleep fold all come from prior keys or
from non-nap records. -/
theorem sleepFoldE_keys :
    ∀ (rs : List SleepRec) (acc acc2 : List (Int × NightAcc)),
      sleepFoldE rs acc = Except.ok acc2 →
      ∀ k, k ∈ acc2.map Prod.fst →
        k ∈ acc.map Prod.fst ∨
          ∃ r ∈ rs, r.is_nap = false ∧ r.night_date = k := by
  intro rs
  induction rs with
  | nil =>
    intro acc acc2 h k hk
    cases h
    exact Or.inl hk
  | cons r rest ih =>
    intro acc acc2 h k hk
    by_cases hnap : r.is_nap = true
    · rw [show sleepFoldE (r :: rest) acc = sleepFoldE rest acc from by
        simp [sleepFoldE, sleepStep, hnap]] at h
      rcases ih acc acc2 h k hk with h' | ⟨r', hr', hn⟩
      · exact Or.inl h'
      · exact Or.inr ⟨r', List.mem_cons_of_mem r hr', hn⟩
    · have hnapf : r.is_nap = false := by simpa using hnap
      cases hv : r.value with
      | none =>
        have herr : sleepFoldE (r :: rest) acc =
            Except.error "TypeError: argument of type NoneType is not iterable" := by
          simp [sleepFoldE, sleepStep, hnap, hv]
        rw [herr] at h
        cases h
      | some v =>
        rw [show sleepFoldE (r :: rest) acc = sleepFoldE rest
            (bupsert r.night_date (nightUpd r.duration v r.source) nightDflt acc)
            from by simp [sleepFoldE, sleepStep, hnap, hv]] at h
        rcases ih _ acc2 h k hk with h' | ⟨r', hr', hn⟩
        · rcases (bupsert_keys_mem k r.night_date
              (nightUpd r.duration v r.source) nightDflt acc).mp h' with h'' | rfl
          · exact Or.inl h''
          · exact Or.inr ⟨r, List.mem_cons_self r rest, hnapf, rfl⟩
        · exact Or.inr ⟨r', List.mem_cons_of_mem r hr', hn⟩

/-- An entry-wise property preserved by the update and established by the
first update survives a `bupsert`. -/
theorem bupsert_forall {β : Type} (P : β → Prop) (k : Int) (f : β → β)
    (dflt : β) (hf : ∀ b, P b → P (f b)) (hd : P (f dflt)) :
    ∀ (acc : List (Int × β)), (∀ p ∈ acc, P p.2) →
      ∀ p ∈ bupsert k f dflt acc, P p.2 := by
  intro acc
  induction acc with
  | nil =>
    intro _ p hp
    simp only [bupsert, List.mem_singleton] at hp
    subst hp
    exact hd
  | cons a as ih =>
    intro hacc p hp
    simp only [bupsert] at hp
    by_cases h : a.1 = k
    · rw [if_pos h] at hp
      rcases List.mem_cons.mp hp with rfl | hmem
      · exact hf a.2 (hacc a (List.mem_cons_self a as))
      · exact hacc p (List.mem_cons_of_mem a hmem)
    · rw [if_neg h] at hp
      rcases List.mem_cons.mp hp with rfl | hmem
      · exact hacc p (List.mem_cons_self p as)
      · exact ih (fun q hq => hacc q (List.mem_cons_of_mem a hq)) p hmem

/-- An entry-wise property of night buckets preserved by `nightUpd` holds
of everything a successful sleep fold produces. -/
theorem sleepFoldE_inv (P : NightAcc → Prop)
    (hupd : ∀ (dur : ℚ) (v src : String) (b : NightAcc),
      P b → P (nightUpd dur v src b))
    (hdflt : ∀ (dur : ℚ) (v src : String), P (nightUpd dur v src nightDflt)) :
    ∀ (rs : List SleepRec) (acc acc2 : List (Int × NightAcc)),
      sleepFoldE rs acc = Except.ok acc2 → (∀ p ∈ acc, P p.2) →
      ∀ p ∈ acc2, P p.2 := by
  intro rs
  induction rs with
  | nil =>
    intro acc acc2 h hacc
    cases h
    exact hacc
  | cons r rest ih =>
    intro acc acc2 h hacc
    by_cases hnap : r.is_nap = true
    · rw [show sleepFoldE (r :: rest) acc = sleepFoldE rest acc from by
        simp [sleepFoldE, sleepStep, hnap]] at h
      exact ih acc acc2 h hacc
    · cases hv : r.value with
      | none =>
        have herr : sleepFoldE (r :: rest) acc =
            Except.error "TypeError: argument of type NoneType is not iterable" := by
          simp [sleepFoldE, sleepStep, hnap, hv]
        rw [herr] at h
        cases h
      | some v =>
        rw [show sleepFoldE (r :: rest) acc = sleepFoldE rest
            (bupsert r.night_date (nightUpd r.duration v r.source) nightDflt acc)
            from by simp [sleepFoldE, sleepStep, hnap, hv]] at h
        exact ih _ acc2 h
          (bupsert_forall P r.night_date (nightUpd r.duration v r.source)
            nightDflt (hupd r.duration v r.source) (hdflt r.duration v r.source)
            acc hacc)

/-- The bucket update preserves the category-sum invariant. -/
theorem nightUpd_inv (dur : ℚ) (v src : String) (b : NightAcc)
    (h : b.total = b.asleep + b.in_bed + b.unspecified) :
    (nightUpd dur v src b).total = (nightUpd dur v src b).asleep +
      (nightUpd dur v src b).in_bed + (nightUpd dur v src b).unspecified := by
  by_cases h1 : strContains v "Asleep" = true
  · simp [nightUpd, h1]
    linarith
  · by_cases h2 : strContains v "InBed" = true
    · simp [nightUpd, h1, h2]
      linarith
    · simp [nightUpd, h1, h2]
      linarith

/-- The bucket update always leaves a non-empty source set. -/
theorem nightUpd_sources_ne (dur : ℚ) (v src : String) (b : NightAcc) :
    (nightUpd dur v src b).sources ≠ [] := by
  by_cases h1 : strContains v "Asleep" = true
  · simp only [nightUpd, h1, if_pos]
    exact saddList_ne_nil src b.sources
  · by_cases h2 : strContains v "InBed" = true
    · simp only [nightUpd, h1, h2]
      rw [if_neg (by simp [h1]), if_pos (by simp [h2])]
      exact saddList_ne_nil src b.sources
    · simp only [nightUpd]
      rw [if_neg (by simp [h1]), if_neg (by simp [h2])]
      exact saddList_ne_nil src b.sources

/-- C3: a record is flagged as a nap exactly when its local start hour is
strictly between 8 and 18; the aggregation of any record list equals the
aggregation of its non-nap records (naps touch nothing); and a night all of
whose records are naps yields no output row. -/
theorem nap_exclusion_c3 :
    (∀ (raws : List RawSleepRec) (rec : SleepRec),
        rec ∈ (get_sleep_records raws).1 →
        (rec.is_nap = true ↔
          (8 < rec.start_date.hour ∧ rec.start_date.hour < 18))) ∧
    (∀ rs : List SleepRec,
        aggregate_sleep_by_night rs =
          aggregate_sleep_by_night (rs.filter (fun r => !r.is_nap))) ∧
    (∀ (rs : List SleepRec) (d : Int) (out : List NightRow),
        (∀ r ∈ rs, r.night_date = d → r.is_nap = true) →
        aggregate_sleep_by_night rs = Except.ok out →
        ∀ row ∈ out, row.date ≠ d) := by
  refine ⟨?_, ?_, ?_⟩
  · intro raws rec h
    rw [(get_sleep_records_shape raws rec h).2]
    constructor
    · intro hb
      simp only [Bool.and_eq_true, decide_eq_true_eq] at hb
      exact ⟨hb.2, hb.1⟩
    · intro hb
      simp only [Bool.and_eq_true, decide_eq_true_eq]
      exact ⟨hb.2, hb.1⟩
  · intro rs
    unfold aggregate_sleep_by_night
    rw [← sleepFoldE_filter]
  · intro rs d out hall hagg row hrow
    unfold aggregate_sleep_by_night at hagg
    cases hf : sleepFoldE rs [] with
    | error m => rw [hf] at hagg; cases hagg
    | ok acc =>
      rw [hf] at hagg
      cases hagg
      intro hd
      have hrow2 := (List.perm_insertionSort
        (fun a b : NightRow => a.date ≤ b.date) (acc.map toNightRow)).mem_iff.mp
        hrow
      obtain ⟨p, hp, rfl⟩ := List.mem_map.mp hrow2
      have hk : p.1 ∈ acc.map Prod.fst := List.mem_map_of_mem Prod.fst hp
      rcases sleepFoldE_keys rs [] acc hf p.1 hk with h' | ⟨r', hr', hnapf, hn⟩
      · simp at h'
      · have hnapt := hall r' hr' (hn.trans hd)
        rw [hnapf] at hnapt
        cases hnapt

/-- Witness for C3: the accepted record starting at 14:00 is a nap, the
aggregation of it alone equals the aggregation of the empty filtered list,
no row is produced, and the conclusion holds vacuously of the empty
output. -/
theorem nap_exclusion_c3_witness :
    (ex3rec ∈ (get_sleep_records ex3raw).1) ∧
    (ex3rec.is_nap = true ↔
      (8 < ex3rec.start_date.hour ∧ ex3rec.start_date.hour < 18)) ∧
    ex3rec.is_nap = true ∧
    aggregate_sleep_by_night [ex3rec] =
      aggregate_sleep_by_night ([ex3rec].filter (fun r => !r.is_nap)) ∧
    aggregate_sleep_by_night [ex3rec] = Except.ok [] ∧
    (∀ row ∈ ([] : List NightRow), row.date ≠ (100 : Int)) := by
  refine ⟨by decide, nap_exclusion_c3.1 ex3raw ex3rec (by decide), by decide,
    nap_exclusion_c3.2.1 [ex3rec], by rfl,
    nap_exclusion_c3.2.2 [ex3rec] 100 [] (by decide) (by rfl)⟩

/-- C10: every row of a successful night aggregation satisfies
`total = asleep + in_bed + unspecified` over exact rationals and carries a
non-empty source set; and each included record's duration goes to exactly
one category — `asleep` when the label contains "Asleep", else `in_bed`
when it contains "InBed", else `unspecified` — and always to `total`. -/
theorem night_total_invariant_c10 :
    (∀ (rs : List SleepRec) (out : List NightRow),
        aggregate_sleep_by_night rs = Except.ok out →
        ∀ row ∈ out,
          row.total = row.asleep + row.in_bed + row.unspecified ∧
          row.sources ≠ []) ∧
    (∀ (dur : ℚ) (v src : String) (b : NightAcc),
        (nightUpd dur v src b).total = b.total + dur ∧
        (strContains v "Asleep" = true →
          (nightUpd dur v src b).asleep = b.asleep + dur ∧
          (nightUpd dur v src b).in_bed = b.in_bed ∧
          (nightUpd dur v src b).unspecified = b.unspecified) ∧
        (strContains v "Asleep" = false → strContains v "InBed" = true →
          (nightUpd dur v src b).in_bed = b.in_bed + dur ∧
          (nightUpd dur v src b).asleep = b.asleep ∧
          (nightUpd dur v src b).unspecified = b.unspecified) ∧
        (strContains v "Asleep" = false → strContains v "InBed" = false →
          (nightUpd dur v src b).unspecified = b.unspecified + dur ∧
          (nightUpd dur v src b).asleep = b.asleep ∧
          (nightUpd dur v src b).in_bed = b.in_bed)) := by
  constructor
  · intro rs out hagg row hrow
    unfold aggregate_sleep_by_night at hagg
    cases hf : sleepFoldE rs [] with
    | error m => rw [hf] at hagg; cases hagg
    | ok acc =>
      rw [hf] at hagg
      cases hagg
      have hrow2 := (List.perm_insertionSort
        (fun a b : NightRow => a.date ≤ b.date) (acc.map toNightRow)).mem_iff.mp
        hrow
      obtain ⟨p, hp, rfl⟩ := List.mem_map.mp hrow2
      have hinv := sleepFoldE_inv
        (fun b => b.total = b.asleep + b.in_bed + b.unspecified ∧
          b.sources ≠ [])
        (fun dur v src b hb => ⟨nightUpd_inv dur v src b hb.1,
          nightUpd_sources_ne dur v src b⟩)
        (fun dur v src => ⟨nightUpd_inv dur v src nightDflt (by simp [nightDflt]),
          nightUpd_sources_ne dur v src nightDflt⟩)
        rs [] acc hf (by simp)
      exact hinv p hp
  · intro dur v src b
    refine ⟨?_, ?_, ?_, ?_⟩
    · by_cases h1 : strContains v "Asleep" = true
      · simp [nightUpd, h1]
      · by_cases h2 : strContains v "InBed" = true
        · simp [nightUpd, h1, h2]
        · simp [nightUpd, h1, h2]
    · intro h1
      simp [nightUpd, h1]
    · intro h1 h2
      simp [nightUpd, h1, h2]
    · intro h1 h2
      simp [nightUpd, h1, h2]

/-- Witness for C10 at two non-nap records of one night (8h asleep, 1h in
bed): the single row satisfies `9 = 8 + 1 + 0` with source Watch, and a
concrete update adds its duration to the total. -/
theorem night_total_invariant_c10_witness :
    aggregate_sleep_by_night ex10 = Except.ok [⟨100, 8, 1, 0, 9, ["Watch"]⟩] ∧
    (9 : ℚ) = 8 + 1 + 0 ∧
    (["Watch"] : List String) ≠ [] ∧
    (nightUpd 2 "HKCategoryValueSleepAnalysisAsleepDeep" "W" nightDflt).total
      = nightDflt.total + 2 := by
  refine ⟨by rfl, ?_, ?_, ?_⟩
  · exact (night_total_invariant_c10.1 ex10 [⟨100, 8, 1, 0, 9, ["Watch"]⟩]
      (by rfl) ⟨100, 8, 1, 0, 9, ["Watch"]⟩ (by decide)).1
  · exact (night_total_invariant_c10.1 ex10 [⟨100, 8, 1, 0, 9, ["Watch"]⟩]
      (by rfl) ⟨100, 8, 1, 0, 9, ["Watch"]⟩ (by decide)).2
  · exact (night_total_invariant_c10.2 2 "HKCategoryValueSleepAnalysisAsleepDeep"
      "W" nightDflt).1

end
